import Mathlib

/-!
Verification of the calendar-construction core of html-calendar-rs
(src/main.rs) against its design document.

The file embeds, in order:
* a model of the chrono civil-calendar boundary (proleptic Gregorian dates,
  ISO weekdays, day differences) that the design document assumes correct;
  the chrono NaiveDate::from_ymd panics on an unrepresentable date, which is
  modelled by returning Option.none from NaiveDate.from_ymd and mapping that
  to MonthResult.panic in the callers;
* the Day and Month data model and the two constructors Month::new and
  Month::from_date_notation, translated from src/main.rs;
* theorems settling the behavioural claims about those constructors.
-/

namespace HtmlCalendar

/-- Gregorian leap-year rule (divisibility by 4, except centuries outside 400). -/
def isLeapYear (y : Int) : Prop := y % 4 = 0 ∧ (y % 100 ≠ 0 ∨ y % 400 = 0)

instance (y : Int) : Decidable (isLeapYear y) := by unfold isLeapYear; infer_instance

/-- Number of days of month m (1..12) of year y in the proleptic Gregorian calendar. -/
def daysInMonthTable (y : Int) (m : Nat) : Nat :=
  if m = 2 then (if isLeapYear y then 29 else 28)
  else if m = 4 ∨ m = 6 ∨ m = 9 ∨ m = 11 then 30
  else 31

/-- Total days in the months 1..m-1 of year y. -/
def daysBeforeMonth (y : Int) (m : Nat) : Nat :=
  (if m ≤ 1 then 0 else if m = 2 then 31 else if m = 3 then 59 else if m = 4 then 90
   else if m = 5 then 120 else if m = 6 then 151 else if m = 7 then 181
   else if m = 8 then 212 else if m = 9 then 243 else if m = 10 then 273
   else if m = 11 then 304 else 334)
  + (if 2 < m ∧ isLeapYear y then 1 else 0)

/-- Number of leap years in (0, y] for y ≥ 0, extended to all years by floor division. -/
def leapsBefore (y : Int) : Int := y / 4 - y / 100 + y / 400

/-- Day number of the civil date (y, m, d); 0001-01-01 is day 1, a Monday. -/
def toDayNumber (y : Int) (m d : Nat) : Int :=
  365 * (y - 1) + leapsBefore (y - 1) + (daysBeforeMonth y m : Int) + (d : Int)

/-- A chrono NaiveDate: a civil (proleptic Gregorian) date. -/
structure NaiveDate where
  year : Int
  month : Nat
  day : Nat
deriving Repr, DecidableEq

/-- the chrono NaiveDate::from_ymd; Option.none models the panic it raises on an
invalid (year, month, day) combination. -/
def NaiveDate.from_ymd (y : Int) (m d : Nat) : Option NaiveDate :=
  if 1 ≤ m ∧ m ≤ 12 ∧ 1 ≤ d ∧ d ≤ daysInMonthTable y m then some ⟨y, m, d⟩ else none

/-- Linear day number of a date. -/
def NaiveDate.dayNumber (date : NaiveDate) : Int := toDayNumber date.year date.month date.day

/-- the chrono date.weekday().number_from_monday(): Monday = 1 .. Sunday = 7. -/
def NaiveDate.weekday_number_from_monday (date : NaiveDate) : Nat :=
  ((date.dayNumber - 1) % 7).toNat + 1

/-- the chrono a.signed_duration_since(b).num_days() for midnight-aligned dates. -/
def NaiveDate.signed_duration_since_days (a b : NaiveDate) : Int := a.dayNumber - b.dayNumber

/-- The chrono::Month enumeration. -/
inductive ChronoMonth where
  | january | february | march | april | may | june
  | july | august | september | october | november | december
deriving Repr, DecidableEq

/-- chrono::Month::from_u32 (via num_traits FromPrimitive): 1..12 on the nose. -/
def ChronoMonth.from_u32 : Nat → Option ChronoMonth
  | 1 => some .january
  | 2 => some .february
  | 3 => some .march
  | 4 => some .april
  | 5 => some .may
  | 6 => some .june
  | 7 => some .july
  | 8 => some .august
  | 9 => some .september
  | 10 => some .october
  | 11 => some .november
  | 12 => some .december
  | _ => none

/-- chrono::Month::succ, with December wrapping to January. -/
def ChronoMonth.succ : ChronoMonth → ChronoMonth
  | .january => .february
  | .february => .march
  | .march => .april
  | .april => .may
  | .may => .june
  | .june => .july
  | .july => .august
  | .august => .september
  | .september => .october
  | .october => .november
  | .november => .december
  | .december => .january

/-- chrono::Month::number_from_month: January = 1 .. December = 12. -/
def ChronoMonth.number_from_month : ChronoMonth → Nat
  | .january => 1
  | .february => 2
  | .march => 3
  | .april => 4
  | .may => 5
  | .june => 6
  | .july => 7
  | .august => 8
  | .september => 9
  | .october => 10
  | .november => 11
  | .december => 12

/-- struct Day: one calendar cell (src/main.rs). -/
structure Day where
  txt : String
  red : Bool
deriving Repr, DecidableEq

/-- Day::empty (src/main.rs). -/
def Day.empty : Day := { txt := "", red := false }

/-- impl From.NaiveDate for Day (src/main.rs): label is the day of month, red
when the weekday is Sunday or Saturday. -/
def Day.ofDate (date : NaiveDate) : Day :=
  { txt := toString date.day,
    red := date.weekday_number_from_monday == 7 || date.weekday_number_from_monday == 6 }

/-- struct Month: month heading and the week-chunked table of cells (src/main.rs). -/
structure Month where
  name : String
  days : List (List Day)
deriving Repr, DecidableEq

/-- Outcome of the fallible constructors: a panic raised inside the body (by
the chrono from_ymd), the typed failure Option::None, or a constructed Month. -/
inductive MonthResult where
  | panic
  | none
  | some (m : Month)
deriving Repr, DecidableEq

/-- Rust slice::chunks with chunk size 7, fuelled to keep recursion structural;
the fuel is always instantiated with the list length. -/
def chunksOf7Go {α : Type} : Nat → List α → List (List α)
  | _, [] => []
  | 0, _ :: _ => []
  | fuel + 1, x :: xs => ((x :: xs).take 7) :: chunksOf7Go fuel ((x :: xs).drop 7)

/-- Rust slice::chunks(7): consecutive chunks of 7, last one possibly shorter,
no chunks at all for the empty slice. -/
def chunksOf7 {α : Type} (l : List α) : List (List α) := chunksOf7Go l.length l

/-- Collects a list of options, failing if any entry is none; models a panic
inside an iterator map surfacing at collect time. -/
def sequenceOption {α : Type} : List (Option α) → Option (List α)
  | [] => some []
  | Option.none :: _ => none
  | Option.some a :: rest =>
    match sequenceOption rest with
    | Option.none => none
    | Option.some l => some (a :: l)

/-- The month_rus localization table of Month::new (src/main.rs). -/
def month_rus : ChronoMonth → String
  | .january => "Январь"
  | .february => "Февраль"
  | .march => "Март"
  | .april => "Апрель"
  | .may => "Май"
  | .june => "Июнь"
  | .july => "Июль"
  | .august => "Август"
  | .september => "Сентябрь"
  | .october => "Октябрь"
  | .november => "Ноябрь"
  | .december => "Декабрь"

/-- The days-in-month block of Month::new (src/main.rs lines 59-72): successor
month, December-to-January year rollover, day-count difference between the two
first-of-month dates; Option.none models the (unreachable) from_ymd panic. -/
def days_in_month_of (month : ChronoMonth) (date : NaiveDate) : Option Int :=
  let next_month := month.succ.number_from_month
  let next_months_year := if next_month > date.month then date.year else date.year + 1
  (NaiveDate.from_ymd next_months_year next_month 1).map
    (fun next_month_date => next_month_date.signed_duration_since_days date)

/-- First closure of the cell pipeline in Month::new: keep padding, turn a day
number into its date via the chrono from_ymd (with the day cast to u32). -/
def dateOfCell (year : Int) (order : Nat) (o : Option Nat) : Option (Option NaiveDate) :=
  o.map (fun day => NaiveDate.from_ymd year order (day % 4294967296))

/-- Second closure of the cell pipeline in Month::new: map_or_else(Day::empty,
Day::from), propagating a panic from the date construction. -/
def dayOfCell (o : Option (Option NaiveDate)) : Option Day :=
  match o with
  | Option.none => Option.some Day.empty
  | Option.some inner => inner.map Day.ofDate

/-- Month::new (src/main.rs): the calendar-construction core. -/
def Month.new (order : Nat) (year : Int) : MonthResult :=
  match NaiveDate.from_ymd year order 1 with
  | Option.none => MonthResult.panic
  | Option.some date =>
    match ChronoMonth.from_u32 date.month with
    | Option.none => MonthResult.none
    | Option.some month =>
      let weekday := date.weekday_number_from_monday
      match days_in_month_of month date with
      | Option.none => MonthResult.panic
      | Option.some days_in_month =>
        let month_name := month_rus month ++ " " ++ toString year
        let dates : List (Option (Option NaiveDate)) :=
          (List.replicate (weekday - 1) Option.none
            ++ (List.range' 1 days_in_month.toNat).map Option.some).map
            (dateOfCell year order)
        let cells : List (Option Day) := dates.map dayOfCell
        match sequenceOption cells with
        | Option.none => MonthResult.panic
        | Option.some flat => MonthResult.some { name := month_name, days := chunksOf7 flat }

/-- Rust str::split on the single-character separator "-". -/
def splitDash : List Char → List (List Char)
  | [] => [[]]
  | c :: rest =>
    if c = '-' then [] :: splitDash rest
    else
      match splitDash rest with
      | [] => [[c]]
      | seg :: segs => (c :: seg) :: segs

/-- Value of a list of decimal digit characters. -/
def digitsToNat (ds : List Char) : Nat :=
  ds.foldl (fun acc c => acc * 10 + (c.toNat - 48)) 0

/-- Rust str::parse for i64: optional single sign, then one or more ASCII
digits, rejecting anything else and values outside the i64 range. -/
def parseI64 (s : List Char) : Option Int :=
  match s with
  | [] => Option.none
  | c :: rest =>
    let sgnDigits : Int × List Char :=
      if c = '-' then (-1, rest)
      else if c = '+' then (1, rest)
      else (1, c :: rest)
    if sgnDigits.2 = [] then Option.none
    else if sgnDigits.2.all Char.isDigit then
      let v : Int := sgnDigits.1 * (digitsToNat sgnDigits.2 : Int)
      if -(2 ^ 63) ≤ v ∧ v ≤ 2 ^ 63 - 1 then Option.some v else Option.none
    else Option.none

/-- Rust integer cast i64 as u32: reduction modulo 2^32. -/
def i64_as_u32 (n : Int) : Nat := (n % 4294967296).toNat

/-- Rust integer cast i64 as i32: reduction modulo 2^32 into [-2^31, 2^31). -/
def i64_as_i32 (n : Int) : Int :=
  if n % 4294967296 < 2147483648 then n % 4294967296 else n % 4294967296 - 4294967296

/-- Month::from_date_notation (src/main.rs): split on '-', parse segments as
i64, take the first as the year (cast to i32) and the second as the month
(cast to u32), then delegate to Month::new. -/
def Month.from_date_notation (s : String) : MonthResult :=
  match (splitDash s.toList).map (fun seg => parseI64 seg) with
  | [] => MonthResult.none
  | [_] => MonthResult.none
  | ya :: ma :: _ =>
    match ya, ma with
    | Option.some y, Option.some m => Month.new (i64_as_u32 m) (i64_as_i32 y)
    | _, _ => MonthResult.none

/-- The localized month name keyed directly by the month number (specification
view of the month_rus table composed with the number-to-month lookup). -/
def rusMonthName (m : Nat) : String :=
  if m = 1 then "Январь" else if m = 2 then "Февраль" else if m = 3 then "Март"
  else if m = 4 then "Апрель" else if m = 5 then "Май" else if m = 6 then "Июнь"
  else if m = 7 then "Июль" else if m = 8 then "Август" else if m = 9 then "Сентябрь"
  else if m = 10 then "Октябрь" else if m = 11 then "Ноябрь" else "Декабрь"

/-- The flat cell sequence that Month::new chunks into weeks: weekday-of-day-1
minus one padding cells, then one populated cell per day of the month. -/
def flatCells (m : Nat) (y : Int) : List Day :=
  List.replicate ((NaiveDate.mk y m 1).weekday_number_from_monday - 1) Day.empty
    ++ (List.range' 1 (daysInMonthTable y m)).map (fun d => Day.ofDate ⟨y, m, d⟩)

/-! Helper lemmas about the calendar model. -/

theorem daysInMonthTable_ge (y : Int) (m : Nat) : 28 ≤ daysInMonthTable y m := by
  unfold daysInMonthTable; split_ifs <;> omega

theorem daysInMonthTable_le (y : Int) (m : Nat) : daysInMonthTable y m ≤ 31 := by
  unfold daysInMonthTable; split_ifs <;> omega

theorem one_le_table (y : Int) (m : Nat) : 1 ≤ daysInMonthTable y m :=
  le_trans (by omega) (daysInMonthTable_ge y m)

theorem from_ymd_valid {y : Int} {m d : Nat} (h1 : 1 ≤ m) (h2 : m ≤ 12) (h3 : 1 ≤ d)
    (h4 : d ≤ daysInMonthTable y m) :
    NaiveDate.from_ymd y m d = Option.some ⟨y, m, d⟩ := by
  unfold NaiveDate.from_ymd
  exact if_pos ⟨h1, h2, h3, h4⟩

theorem from_ymd_d1 (y : Int) (m : Nat) (h1 : 1 ≤ m) (h2 : m ≤ 12) :
    NaiveDate.from_ymd y m 1 = Option.some ⟨y, m, 1⟩ :=
  from_ymd_valid h1 h2 (le_refl 1) (one_le_table y m)

theorem weekday_bounds (date : NaiveDate) :
    1 ≤ date.weekday_number_from_monday ∧ date.weekday_number_from_monday ≤ 7 := by
  unfold NaiveDate.weekday_number_from_monday
  have h1 : 0 ≤ (date.dayNumber - 1) % 7 := Int.emod_nonneg _ (by omega)
  have h2 : (date.dayNumber - 1) % 7 < 7 := Int.emod_lt_of_pos _ (by omega)
  omega

/-- Every month number in [1,12] has a ChronoMonth with matching number and
localized name. -/
theorem chrono_of_valid (m : Nat) (h1 : 1 ≤ m) (h2 : m ≤ 12) :
    ∃ cm : ChronoMonth, ChronoMonth.from_u32 m = Option.some cm ∧
      cm.number_from_month = m ∧ month_rus cm = rusMonthName m := by
  interval_cases m <;> exact ⟨_, rfl, rfl, rfl⟩

/-- The day-count difference computed by the days-in-month block equals the
Gregorian length of the month, for every year. -/
theorem days_in_month_of_spec (cm : ChronoMonth) (y : Int) :
    days_in_month_of cm ⟨y, cm.number_from_month, 1⟩ =
      Option.some (daysInMonthTable y cm.number_from_month : Int) := by
  cases cm <;>
    · simp only [days_in_month_of, ChronoMonth.succ, ChronoMonth.number_from_month]
      first
      | rw [from_ymd_d1 _ 1 (by omega) (by omega)]
      | rw [from_ymd_d1 _ 2 (by omega) (by omega)]
      | rw [from_ymd_d1 _ 3 (by omega) (by omega)]
      | rw [from_ymd_d1 _ 4 (by omega) (by omega)]
      | rw [from_ymd_d1 _ 5 (by omega) (by omega)]
      | rw [from_ymd_d1 _ 6 (by omega) (by omega)]
      | rw [from_ymd_d1 _ 7 (by omega) (by omega)]
      | rw [from_ymd_d1 _ 8 (by omega) (by omega)]
      | rw [from_ymd_d1 _ 9 (by omega) (by omega)]
      | rw [from_ymd_d1 _ 10 (by omega) (by omega)]
      | rw [from_ymd_d1 _ 11 (by omega) (by omega)]
      | rw [from_ymd_d1 _ 12 (by omega) (by omega)]
      simp only [Option.map_some', NaiveDate.signed_duration_since_days, NaiveDate.dayNumber,
        toDayNumber, daysInMonthTable, daysBeforeMonth, leapsBefore, Option.some.injEq]
      norm_num
      all_goals try split_ifs
      all_goals try simp only [isLeapYear] at *
      all_goals try push_cast
      all_goals omega

/-! Lemmas about the chunking of the flat cell list into week rows. -/

theorem chunksOf7Go_flatten {α : Type} (fuel : Nat) (l : List α) (h : l.length ≤ fuel) :
    (chunksOf7Go fuel l).flatten = l := by
  induction fuel generalizing l with
  | zero =>
    cases l with
    | nil => rfl
    | cons x xs => simp at h
  | succ f ih =>
    cases l with
    | nil => rfl
    | cons x xs =>
      simp only [chunksOf7Go, List.flatten_cons]
      rw [ih ((x :: xs).drop 7)
        (by simp only [List.length_drop, List.length_cons] at h ⊢; omega)]
      exact List.take_append_drop 7 (x :: xs)

theorem chunksOf7Go_chunk_bounds {α : Type} (fuel : Nat) (l : List α) (h : l.length ≤ fuel)
    (c : List α) (hc : c ∈ chunksOf7Go fuel l) : c.length ≤ 7 ∧ c ≠ [] := by
  induction fuel generalizing l with
  | zero =>
    cases l with
    | nil => simp [chunksOf7Go] at hc
    | cons x xs => simp at h
  | succ f ih =>
    cases l with
    | nil => simp [chunksOf7Go] at hc
    | cons x xs =>
      simp only [chunksOf7Go, List.mem_cons] at hc
      rcases hc with hc | hc
      · subst hc
        refine ⟨by simp [List.length_take], ?_⟩
        apply List.length_pos.mp
        simp only [List.length_take, List.length_cons]
        omega
      · exact ih ((x :: xs).drop 7)
          (by simp only [List.length_drop, List.length_cons] at h ⊢; omega) hc

theorem chunksOf7Go_ne_nil {α : Type} (fuel : Nat) (x : α) (xs : List α)
    (h : (x :: xs).length ≤ fuel) : chunksOf7Go fuel (x :: xs) ≠ [] := by
  cases fuel with
  | zero => simp at h
  | succ f => simp [chunksOf7Go]

theorem chunksOf7Go_full_rows {α : Type} (fuel : Nat) (l : List α) (h : l.length ≤ fuel)
    (i : Nat) (hi : i + 1 < (chunksOf7Go fuel l).length) :
    ((chunksOf7Go fuel l).getD i []).length = 7 := by
  induction fuel generalizing l i with
  | zero =>
    cases l with
    | nil => simp [chunksOf7Go] at hi
    | cons x xs => simp at h
  | succ f ih =>
    cases l with
    | nil => simp [chunksOf7Go] at hi
    | cons x xs =>
      simp only [chunksOf7Go, List.length_cons] at hi ⊢
      cases i with
      | zero =>
        have hd : (x :: xs).drop 7 ≠ [] := by
          intro hnil
          rw [hnil] at hi
          simp [chunksOf7Go] at hi
        have hlen : 7 < (x :: xs).length := by
          have h1 := List.length_drop 7 (x :: xs)
          have h2 : 0 < ((x :: xs).drop 7).length := List.length_pos.mpr hd
          simp only [List.length_cons] at h1 ⊢
          omega
        simp only [List.getD_cons_zero, List.length_take, List.length_cons]
        simp only [List.length_cons] at hlen
        omega
      | succ j =>
        simp only [List.getD_cons_succ]
        exact ih ((x :: xs).drop 7)
          (by simp only [List.length_drop, List.length_cons] at h ⊢; omega) j (by omega)

theorem getD_last_mem {α : Type} (l : List (List α)) (h : l ≠ []) :
    l.getD (l.length - 1) [] ∈ l := by
  have hlen : l.length - 1 < l.length := by
    have := List.length_pos.mpr h
    omega
  rw [List.getD_eq_getElem l [] hlen]
  exact List.getElem_mem hlen

theorem sequenceOption_map_some {α : Type} (l : List α) :
    sequenceOption (l.map Option.some) = Option.some l := by
  induction l with
  | nil => rfl
  | cons x xs ih => simp [sequenceOption, ih]

/-- The cell pipeline of Month::new never panics on days within the month:
it produces exactly the padding cells followed by the populated day cells. -/
theorem seq_cells (y : Int) (m : Nat) (h1 : 1 ≤ m) (h2 : m ≤ 12) (w n : Nat)
    (hn : n ≤ daysInMonthTable y m) :
    sequenceOption
      (((List.replicate w Option.none ++ (List.range' 1 n).map Option.some).map
        (dateOfCell y m)).map dayOfCell)
    = Option.some
        (List.replicate w Day.empty
          ++ (List.range' 1 n).map (fun d => Day.ofDate ⟨y, m, d⟩)) := by
  have key : ((List.replicate w Option.none ++ (List.range' 1 n).map Option.some).map
        (dateOfCell y m)).map dayOfCell
      = (List.replicate w Day.empty
          ++ (List.range' 1 n).map (fun d => Day.ofDate ⟨y, m, d⟩)).map Option.some := by
    simp only [List.map_map, List.map_append, List.map_replicate]
    congr 1
    apply List.map_congr_left
    intro d hd
    rw [List.mem_range'_1] at hd
    have hmod : d % 4294967296 = d := Nat.mod_eq_of_lt (by
      have := daysInMonthTable_le y m
      omega)
    simp only [Function.comp_apply, dateOfCell, dayOfCell, Option.map_some']
    rw [hmod, from_ymd_valid h1 h2 (by omega) (by omega)]
    rfl
  rw [key, sequenceOption_map_some]

/-- For every month in [1,12] and every year, Month::new succeeds and builds
exactly the week-chunked flat cell list with the localized heading. -/
theorem month_new_eq (m : Nat) (y : Int) (h1 : 1 ≤ m) (h2 : m ≤ 12) :
    Month.new m y = MonthResult.some
      { name := rusMonthName m ++ " " ++ toString y,
        days := chunksOf7 (flatCells m y) } := by
  obtain ⟨cm, hcm, hnum, hrus⟩ := chrono_of_valid m h1 h2
  have hfirst : NaiveDate.from_ymd y m 1 = Option.some ⟨y, m, 1⟩ := from_ymd_d1 y m h1 h2
  have hdays : days_in_month_of cm ⟨y, m, 1⟩ = Option.some (daysInMonthTable y m : Int) := by
    have h := days_in_month_of_spec cm y
    rw [hnum] at h
    exact h
  have hseq := seq_cells y m h1 h2 ((NaiveDate.mk y m 1).weekday_number_from_monday - 1)
      (daysInMonthTable y m) (le_refl _)
  unfold Month.new
  rw [hfirst]
  simp only [hcm, hdays, Int.toNat_natCast, hseq, hrus, flatCells]

theorem chunksOf7_ne_nil {α : Type} (l : List α) (hl : l ≠ []) : chunksOf7 l ≠ [] := by
  cases l with
  | nil => exact absurd rfl hl
  | cons x xs => exact chunksOf7Go_ne_nil _ x xs (le_refl _)

theorem flatCells_ne_nil (m : Nat) (y : Int) : flatCells m y ≠ [] := by
  apply List.length_pos.mp
  unfold flatCells
  simp only [List.length_append, List.length_replicate, List.length_map, List.length_range']
  have := daysInMonthTable_ge y m
  omega

/-- Month::new never yields the typed failure caught by the question-mark
operator on the ChronoMonth lookup: that guard is dead code. -/
theorem month_new_invalid (m : Nat) (y : Int) (h : ¬(1 ≤ m ∧ m ≤ 12)) :
    Month.new m y = MonthResult.panic := by
  have hnone : NaiveDate.from_ymd y m 1 = Option.none := by
    unfold NaiveDate.from_ymd
    exact if_neg (fun hcond => h ⟨hcond.1, hcond.2.1⟩)
  unfold Month.new
  rw [hnone]

theorem month_new_ne_none (m : Nat) (y : Int) : Month.new m y ≠ MonthResult.none := by
  by_cases h : 1 ≤ m ∧ m ≤ 12
  · rw [month_new_eq m y h.1 h.2]
    intro hc
    exact MonthResult.noConfusion hc
  · rw [month_new_invalid m y h]
    intro hc
    exact MonthResult.noConfusion hc

/-- C1: for every year, Month::new with month number 13 or 0 panics inside
the chrono NaiveDate::from_ymd before the defensive ChronoMonth.from_u32 guard
can produce the typed InvalidMonth failure. -/
theorem buildMonth_invalid_month_panics (y : Int) :
    Month.new 13 y = MonthResult.panic ∧ Month.new 0 y = MonthResult.panic := by
  constructor <;> simp [Month.new, NaiveDate.from_ymd]

/-- C5: buildMonth(3, 2017) has heading "Март 2017" and a 5-row grid whose
first row consists of two padding cells followed by days 1-5 with exactly days
4 and 5 marked as weekend, and whose last row holds the texts 27-31. -/
theorem buildMonth_march2017_scenario :
    ∃ M : Month, Month.new 3 2017 = MonthResult.some M ∧
      M.name = "Март 2017" ∧
      M.days.length = 5 ∧
      M.days.getD 0 [] =
        [Day.empty, Day.empty,
         { txt := "1", red := false }, { txt := "2", red := false },
         { txt := "3", red := false }, { txt := "4", red := true },
         { txt := "5", red := true }] ∧
      (M.days.getD 4 []).map Day.txt = ["27", "28", "29", "30", "31"] ∧
      (M.days.getD 4 []).length = 5 := by
  refine ⟨_, rfl, ?_, ?_, ?_, ?_, ?_⟩ <;> decide

/-- C6: the days-in-month computation (day-count difference between the first
of the month and the first of the successor month, with December-to-January
rollover) yields 31 for December 2021 and 29 for February 2020, and the grids
built by Month::new hold exactly that many populated cells. -/
theorem days_in_month_dec2021_feb2020 :
    days_in_month_of ChronoMonth.december ⟨2021, 12, 1⟩ = Option.some 31 ∧
    days_in_month_of ChronoMonth.february ⟨2020, 2, 1⟩ = Option.some 29 ∧
    (∃ M : Month, Month.new 12 2021 = MonthResult.some M ∧
      (M.days.flatten.filter (fun c => c.txt != "")).length = 31) ∧
    (∃ M : Month, Month.new 2 2020 = MonthResult.some M ∧
      (M.days.flatten.filter (fun c => c.txt != "")).length = 29) := by
  refine ⟨by decide, by decide, ⟨_, rfl, by decide⟩, ⟨_, rfl, by decide⟩⟩

/-- C7: parsing the notation string "2021-03" builds exactly the same Month,
field for field, as Month::new applied to month 3 and year 2021. -/
theorem fromNotation_2021_03_eq_buildMonth :
    Month.from_date_notation "2021-03" = Month.new 3 2021 := by decide

/-- C8: the notation strings "not-a-date", "2021" and "" all fail with the
typed MalformedNotation failure (Option::None), producing no Month. -/
theorem fromNotation_malformed_inputs_fail :
    Month.from_date_notation "not-a-date" = MonthResult.none ∧
    Month.from_date_notation "2021" = MonthResult.none ∧
    Month.from_date_notation "" = MonthResult.none := by decide

/-- C10: the month segment is parsed as an i64 and truncated modulo 2^32, so
the huge segment 4294967299 collapses to month 3 and "2021-4294967299"
successfully builds the very Month that Month::new gives for March 2021. -/
theorem fromNotation_month_truncated_mod_2pow32 :
    i64_as_u32 4294967299 = 3 ∧
    Month.from_date_notation "2021-4294967299" = Month.new 3 2021 ∧
    (∃ M : Month, Month.new 3 2021 = MonthResult.some M) := by
  refine ⟨by decide, by decide, ⟨_, rfl⟩⟩

/-- C3 counterexample: an input with more than one dash whose tail is not a
single integer does not fail: "2021-03-05" builds the Month of March 2021. -/
theorem fromNotation_extra_segments_succeed :
    Month.from_date_notation "2021-03-05" = Month.new 3 2021 ∧
    (∃ M : Month, Month.from_date_notation "2021-03-05" = MonthResult.some M) := by
  refine ⟨by decide, ⟨_, rfl⟩⟩

/-- C2: for every month in [1,12] and every year, Month::new succeeds, the
concatenation of its grid rows is exactly weekday-minus-one leading empty
cells (weekday being the Monday-based ISO weekday of day 1) followed by one
populated cell per day of the month, every row has length at most 7, and every
row except possibly the first and last has length exactly 7. -/
theorem buildMonth_grid_structure (m : Nat) (y : Int) (h1 : 1 ≤ m) (h2 : m ≤ 12) :
    ∃ M : Month, Month.new m y = MonthResult.some M ∧
      M.days.flatten =
        List.replicate ((NaiveDate.mk y m 1).weekday_number_from_monday - 1) Day.empty
          ++ (List.range' 1 (daysInMonthTable y m)).map (fun d => Day.ofDate ⟨y, m, d⟩) ∧
      (∀ row ∈ M.days, row.length ≤ 7) ∧
      (∀ i : Nat, 0 < i → i + 1 < M.days.length → (M.days.getD i []).length = 7) := by
  refine ⟨_, month_new_eq m y h1 h2, ?_, ?_, ?_⟩
  · show (chunksOf7 (flatCells m y)).flatten = _
    unfold chunksOf7
    rw [chunksOf7Go_flatten (flatCells m y).length (flatCells m y) (le_refl _)]
    rfl
  · intro row hrow
    exact (chunksOf7Go_chunk_bounds (flatCells m y).length (flatCells m y)
      (le_refl _) row hrow).1
  · intro i _ hi
    exact chunksOf7Go_full_rows (flatCells m y).length (flatCells m y) (le_refl _) i hi

/-- C2 witness: the grid structure at the concrete input March 2017. -/
theorem buildMonth_grid_structure_witness :
    (1 ≤ 3 ∧ 3 ≤ 12) ∧
    (∃ M : Month, Month.new 3 2017 = MonthResult.some M ∧
      M.days.flatten =
        List.replicate ((NaiveDate.mk 2017 3 1).weekday_number_from_monday - 1) Day.empty
          ++ (List.range' 1 (daysInMonthTable 2017 3)).map (fun d => Day.ofDate ⟨2017, 3, d⟩) ∧
      (∀ row ∈ M.days, row.length ≤ 7) ∧
      (∀ i : Nat, 0 < i → i + 1 < M.days.length → (M.days.getD i []).length = 7)) :=
  ⟨by decide, buildMonth_grid_structure 3 2017 (by decide) (by decide)⟩

/-- C9: for every month in [1,12] and every year, every grid row except the
last (the first included) has length exactly 7, and the last row is non-empty
with length between 1 and 7. -/
theorem buildMonth_rows_full_except_last (m : Nat) (y : Int) (h1 : 1 ≤ m) (h2 : m ≤ 12) :
    ∃ M : Month, Month.new m y = MonthResult.some M ∧
      M.days ≠ [] ∧
      (∀ i : Nat, i + 1 < M.days.length → (M.days.getD i []).length = 7) ∧
      1 ≤ (M.days.getD (M.days.length - 1) []).length ∧
      (M.days.getD (M.days.length - 1) []).length ≤ 7 := by
  refine ⟨_, month_new_eq m y h1 h2, ?_, ?_, ?_, ?_⟩
  · exact chunksOf7_ne_nil (flatCells m y) (flatCells_ne_nil m y)
  · intro i hi
    exact chunksOf7Go_full_rows (flatCells m y).length (flatCells m y) (le_refl _) i hi
  · apply List.length_pos.mpr
    exact (chunksOf7Go_chunk_bounds (flatCells m y).length (flatCells m y) (le_refl _) _
      (getD_last_mem _ (chunksOf7_ne_nil (flatCells m y) (flatCells_ne_nil m y)))).2
  · exact (chunksOf7Go_chunk_bounds (flatCells m y).length (flatCells m y) (le_refl _) _
      (getD_last_mem _ (chunksOf7_ne_nil (flatCells m y) (flatCells_ne_nil m y)))).1

/-- C9 witness: the row-length invariant at the concrete input December 2021. -/
theorem buildMonth_rows_full_except_last_witness :
    (1 ≤ 12 ∧ 12 ≤ 12) ∧
    (∃ M : Month, Month.new 12 2021 = MonthResult.some M ∧
      M.days ≠ [] ∧
      (∀ i : Nat, i + 1 < M.days.length → (M.days.getD i []).length = 7) ∧
      1 ≤ (M.days.getD (M.days.length - 1) []).length ∧
      (M.days.getD (M.days.length - 1) []).length ≤ 7) :=
  ⟨by decide, buildMonth_rows_full_except_last 12 2021 (by decide) (by decide)⟩

/-- C4: every cell of a grid built by Month::new is either a padding cell
(empty text and not marked weekend) or the cell of a day d of the month, and a
populated cell is marked weekend exactly when the weekday of its date is
Sunday or Saturday. -/
theorem buildMonth_weekend_cells (m : Nat) (y : Int) (h1 : 1 ≤ m) (h2 : m ≤ 12) :
    ∃ M : Month, Month.new m y = MonthResult.some M ∧
      ∀ row ∈ M.days, ∀ cell ∈ row,
        (cell = Day.empty ∧ cell.txt = "" ∧ cell.red = false) ∨
        (∃ d : Nat, 1 ≤ d ∧ d ≤ daysInMonthTable y m ∧ cell = Day.ofDate ⟨y, m, d⟩ ∧
          (cell.red = true ↔
            ((NaiveDate.mk y m d).weekday_number_from_monday = 7 ∨
             (NaiveDate.mk y m d).weekday_number_from_monday = 6))) := by
  refine ⟨_, month_new_eq m y h1 h2, ?_⟩
  intro row hrow cell hcell
  have hflat : cell ∈ (chunksOf7 (flatCells m y)).flatten :=
    List.mem_flatten.mpr ⟨row, hrow, hcell⟩
  unfold chunksOf7 at hflat
  rw [chunksOf7Go_flatten (flatCells m y).length (flatCells m y) (le_refl _)] at hflat
  rw [flatCells, List.mem_append] at hflat
  rcases hflat with hpad | hday
  · left
    have he : cell = Day.empty := List.eq_of_mem_replicate hpad
    subst he
    exact ⟨rfl, rfl, rfl⟩
  · right
    rw [List.mem_map] at hday
    obtain ⟨d, hd, hcd⟩ := hday
    rw [List.mem_range'_1] at hd
    refine ⟨d, by omega, by omega, hcd.symm, ?_⟩
    rw [← hcd]
    simp [Day.ofDate, Bool.or_eq_true, beq_iff_eq]

/-- C4 witness: the cell characterization at the concrete input February 2020. -/
theorem buildMonth_weekend_cells_witness :
    (1 ≤ 2 ∧ 2 ≤ 12) ∧
    (∃ M : Month, Month.new 2 2020 = MonthResult.some M ∧
      ∀ row ∈ M.days, ∀ cell ∈ row,
        (cell = Day.empty ∧ cell.txt = "" ∧ cell.red = false) ∨
        (∃ d : Nat, 1 ≤ d ∧ d ≤ daysInMonthTable 2020 2 ∧ cell = Day.ofDate ⟨2020, 2, d⟩ ∧
          (cell.red = true ↔
            ((NaiveDate.mk 2020 2 d).weekday_number_from_monday = 7 ∨
             (NaiveDate.mk 2020 2 d).weekday_number_from_monday = 6)))) :=
  ⟨by decide, buildMonth_weekend_cells 2 2020 (by decide) (by decide)⟩

/-- C3 (amended): from_date_notation splits its input on every dash and fails
with the typed MalformedNotation failure exactly when there are fewer than two
dash-separated segments or the first or second segment does not parse as an
i64 integer; segments beyond the second are ignored, so "2021-03-05" succeeds
and builds the very Month of buildMonth(3, 2021). -/
theorem fromNotation_parse_contract (s : String) :
    ( Month.from_date_notation s = MonthResult.none ↔
      ((splitDash s.toList).length < 2 ∨
        parseI64 ((splitDash s.toList).getD 0 []) = Option.none ∨
        parseI64 ((splitDash s.toList).getD 1 []) = Option.none)) ∧
    Month.from_date_notation "2021-03-05" = Month.new 3 2021 := by
  constructor
  · unfold Month.from_date_notation
    cases hsp : splitDash s.toList with
    | nil => simp
    | cons a rest =>
      cases rest with
      | nil => simp
      | cons b rest2 =>
        simp only [List.map_cons, List.length_cons, List.getD_cons_zero, List.getD_cons_succ]
        cases hpa : parseI64 a with
        | none => simp
        | some yv =>
          cases hpb : parseI64 b with
          | none => simp
          | some mv =>
            simp only [Option.some.injEq, reduceCtorEq]
            constructor
            · intro hc
              exact absurd hc (month_new_ne_none _ _)
            · intro hc
              rcases hc with hc | hc | hc
              · omega
              · exact hc.elim
              · exact hc.elim
  · decide

end HtmlCalendar
